import Mathlib

/-!
Verification of the adversarial-training orchestration loop
(`adversarial_training.py`, class `AdversarialTraining`).

The loop is embedded shallowly: tensors become lists, one entry per
example; real-valued quantities become rationals; the external
collaborators (model, attack, objective, per-example loss and error
functions, the confidence function `max ∘ softmax`, and the base
trainer's clean-test writes) are abstract parameters collected in a
context structure, mirroring the fact that the source treats them as
opaque.  Writer calls are recorded as an explicit event trace.
-/

namespace AdvTraining

/-- One call to the metrics writer: `add_text`, `add_scalar` (with value and
`global_step`), or `add_images` (with `global_step`). -/
inductive WriterEvent where
  | text (key : String)
  | scalar (key : String) (value : ℚ) (step : ℕ)
  | images (key : String) (step : ℕ)
deriving DecidableEq

/-- Whether the event is an `add_text` call. -/
def WriterEvent.isText : WriterEvent → Bool
  | .text _ => true
  | _ => false

/-- Whether the event is an `add_scalar` call. -/
def WriterEvent.isScalar : WriterEvent → Bool
  | .scalar _ _ _ => true
  | _ => false

/-- Whether the event is an `add_images` call. -/
def WriterEvent.isImages : WriterEvent → Bool
  | .images _ _ => true
  | _ => false

/-- The tag (key) the event was written under. -/
def WriterEvent.keyOf : WriterEvent → String
  | .text k => k
  | .scalar k _ _ => k
  | .images k _ => k

/-- The `global_step` the event was written at (`add_text` has none). -/
def WriterEvent.stepOf : WriterEvent → Option ℕ
  | .text _ => none
  | .scalar _ _ s => some s
  | .images _ s => some s

/-- The external collaborators of the loop, over an abstract per-example
input type `I`.  `model` maps one example to its logits;
`perturb`/`objectives` are the two components of `attack.run` (the model
and bound objective being fixed context); `normF` is `attack.norm`;
`lossEx` and `errEx` are the per-example classification loss and error
(`reduction='none'`); `confEx` is the per-example confidence
(max of the softmax of the logits); `add` is elementwise tensor addition;
`superTestEvents` are the writer events of the base trainer's clean-test
pass `NormalTraining.test`, an external collaborator. -/
structure Ctx (I : Type) where
  model : I → List ℚ
  perturb : List I → List I
  objectives : List I → List ℚ
  normF : List I → List ℚ
  lossEx : List ℚ → ℕ → ℚ
  errEx : List ℚ → ℕ → ℚ
  confEx : List ℚ → ℚ
  add : I → I → I
  superTestEvents : ℕ → List WriterEvent

/-- The attack returns one perturbation per attacked example, so its
output has the same length as its input (torch would raise a shape
error otherwise). -/
def Ctx.lengthPreserving {I : Type} (ctx : Ctx I) : Prop :=
  ∀ xs : List I, (ctx.perturb xs).length = xs.length

/-- Mean of a list of rationals, as `numpy.mean` / reduction `mean`. -/
def qmean (l : List ℚ) : ℚ := l.sum / l.length

/-- Index of the first maximal element, tracking the best value, its index
and the index of the next element (torch returns the first maximal
index). -/
def argmaxAux {α : Type} [LinearOrder α] : α → ℕ → ℕ → List α → ℕ
  | _, bi, _, [] => bi
  | best, bi, i, x :: xs =>
      if best < x then argmaxAux x i (i + 1) xs else argmaxAux best bi (i + 1) xs

/-- Index of the first maximal element of a list (`torch.max(·, dim=1)[1]`
per example).  Empty lists are out of torch's domain; the value 0 there is
arbitrary. -/
def argmaxIdx {α : Type} [LinearOrder α] : List α → ℕ
  | [] => 0
  | x :: xs => argmaxAux x 0 1 xs

/-- Per-example attack-success indicator, lines 138-141 / 233 of the
source: `torch.clamp(torch.abs(target - argmax(softmax(logits))), max=1)`.
Softmax is a positive multiple of the pointwise exponential, hence
order-preserving, so the argmax of the softmax of the logits is the
argmax of the logits; `argmaxIdx_map_strictMono` below records this
invariance for any strictly monotone pointwise transform. -/
def successInd (target : ℕ) (logits : List ℚ) : ℕ :=
  min ((target : ℤ) - (argmaxIdx logits : ℤ)).natAbs 1

/-- Realized split index of a batch, line 95 of the source:
`split = int(fraction * inputs.size(0))` with `fraction` the stored clean
fraction.  Python `int()` truncates toward zero, which on the non-negative
products arising here is the floor; `Int.toNat` covers the (unreachable)
negative case. -/
def splitIndex (fractionClean : ℚ) (n : ℕ) : ℕ :=
  (⌊fractionClean * (n : ℚ)⌋).toNat

/-- Everything one iteration of the training loop (lines 88-147) produces:
the realized partitions, the recombined batch, the reduced losses, the
backward loss and the per-example metric rows appended to the epoch
accumulators. -/
structure BatchResult (I : Type) where
  split : ℕ
  fractionEff : ℚ
  cleanInputs : List I
  advRaw : List I
  advInputs : List I
  cleanTargets : List ℕ
  advTargets : List ℕ
  combinedInputs : List I
  cleanLoss : ℚ
  advLoss : ℚ
  loss : ℚ
  clLossesEx : List ℚ
  clErrorsEx : List ℚ
  clConfsEx : List ℚ
  successesEx : List ℕ
  lossesEx : List ℚ
  errorsEx : List ℚ
  confsEx : List ℚ

/-- One iteration of the training loop, lines 90-147 of the source:
compute the split and the effective fraction, partition, attack the
suffix, recombine (concatenation when the adversarial part is smaller
than the batch, else the adversarial inputs alone), forward, slice the
logits at the same split, reduce the losses and compose the backward
loss, and build the per-example metric rows. -/
def trainBatch {I : Type} (ctx : Ctx I) (fractionClean : ℚ)
    (inputs : List I) (targets : List ℕ) : BatchResult I :=
  let n := inputs.length
  let split := splitIndex fractionClean n
  let fraction : ℚ := (split : ℚ) / (n : ℚ)
  let cleanInputs := inputs.take split
  let advRaw := inputs.drop split
  let cleanTargets := targets.take split
  let advTargets := targets.drop split
  let perts := ctx.perturb advRaw
  let advInputs := List.zipWith ctx.add advRaw perts
  let combined := if advInputs.length < inputs.length
    then cleanInputs ++ advInputs else advInputs
  let logits := combined.map ctx.model
  let cleanLogits := logits.take split
  let advLogits := logits.drop split
  let advLoss := qmean (List.zipWith ctx.lossEx advLogits advTargets)
  let cleanLoss := if advInputs.length < combined.length
    then qmean (List.zipWith ctx.lossEx cleanLogits cleanTargets) else 0
  let loss := if advInputs.length < combined.length
    then (1 - fraction) * cleanLoss + fraction * advLoss else advLoss
  { split := split
    fractionEff := fraction
    cleanInputs := cleanInputs
    advRaw := advRaw
    advInputs := advInputs
    cleanTargets := cleanTargets
    advTargets := advTargets
    combinedInputs := combined
    cleanLoss := cleanLoss
    advLoss := advLoss
    loss := loss
    clLossesEx := List.zipWith ctx.lossEx cleanLogits cleanTargets
    clErrorsEx := List.zipWith ctx.errEx cleanLogits cleanTargets
    clConfsEx := cleanLogits.map ctx.confEx
    successesEx := List.zipWith (fun lg t => successInd t lg) advLogits advTargets
    lossesEx := List.zipWith ctx.lossEx advLogits advTargets
    errorsEx := List.zipWith ctx.errEx advLogits advTargets
    confsEx := advLogits.map ctx.confEx }

/-- The per-epoch running metric accumulators of the training pass
(lines 78-85 of the source), one growable row list per metric. -/
structure TrainAcc where
  clLosses : List ℚ
  clErrors : List ℚ
  clConfs : List ℚ
  successes : List ℕ
  losses : List ℚ
  errors : List ℚ
  confs : List ℚ

/-- Empty accumulators at the start of an epoch. -/
def TrainAcc.empty : TrainAcc := ⟨[], [], [], [], [], [], []⟩

/-- Append one batch's per-example metric rows to the accumulators
(`common.numpy.concatenate`, lines 134-144 of the source). -/
def TrainAcc.push {I : Type} (acc : TrainAcc) (r : BatchResult I) : TrainAcc :=
  { clLosses := acc.clLosses ++ r.clLossesEx
    clErrors := acc.clErrors ++ r.clErrorsEx
    clConfs := acc.clConfs ++ r.clConfsEx
    successes := acc.successes ++ r.successesEx
    losses := acc.losses ++ r.lossesEx
    errors := acc.errors ++ r.errorsEx
    confs := acc.confs ++ r.confsEx }

/-- The accumulators after a full pass over the training batches. -/
def trainAccum {I : Type} (ctx : Ctx I) (fractionClean : ℚ)
    (batches : List (List I × List ℕ)) : TrainAcc :=
  batches.foldl (fun acc b => acc.push (trainBatch ctx fractionClean b.1 b.2))
    TrainAcc.empty

/-- Writer events of one training pass `train(epoch)`, lines 150-189 of
the source: emitted on the final batch only; the clean-partition scalars
and the clean image grid are guarded by
`adversarial_inputs.shape[0] < inputs.shape[0]` (the final batch has a
clean partition); scalars are the means of the epoch's accumulators. -/
def trainEpochEvents {I : Type} (ctx : Ctx I) (fractionClean : ℚ)
    (epoch : ℕ) (batches : List (List I × List ℕ)) : List WriterEvent :=
  match batches.getLast? with
  | none => []
  | some lb =>
    (if (trainBatch ctx fractionClean lb.1 lb.2).advInputs.length
        < (trainBatch ctx fractionClean lb.1 lb.2).combinedInputs.length then
      [WriterEvent.scalar "train/loss"
         (qmean (trainAccum ctx fractionClean batches).clLosses) epoch,
       WriterEvent.scalar "train/error"
         (qmean (trainAccum ctx fractionClean batches).clErrors) epoch,
       WriterEvent.scalar "train/confidence"
         (qmean (trainAccum ctx fractionClean batches).clConfs) epoch]
     else [])
    ++ [WriterEvent.scalar "train/adversarial_success"
          (qmean ((trainAccum ctx fractionClean batches).successes.map
            (fun s => (s : ℚ)))) epoch,
        WriterEvent.scalar "train/adversarial_loss"
          (qmean (trainAccum ctx fractionClean batches).losses) epoch,
        WriterEvent.scalar "train/adversarial_error"
          (qmean (trainAccum ctx fractionClean batches).errors) epoch,
        WriterEvent.scalar "train/adversarial_confidence"
          (qmean (trainAccum ctx fractionClean batches).confs) epoch]
    ++ (if (trainBatch ctx fractionClean lb.1 lb.2).advInputs.length
          < (trainBatch ctx fractionClean lb.1 lb.2).combinedInputs.length then
          [WriterEvent.images "train/images" epoch]
        else [])
    ++ [WriterEvent.images "train/adversarial_images" epoch]

/-- Everything one iteration of the adversarial test loop produces
(lines 218-234 of the source): the whole batch is attacked, no split. -/
structure TestBatchResult where
  objectivesEx : List ℚ
  lossesEx : List ℚ
  errorsEx : List ℚ
  confsEx : List ℚ
  successesEx : List ℕ
  normsEx : List ℚ

/-- One iteration of the adversarial test loop, lines 218-234 of the
source. -/
def testBatch {I : Type} (ctx : Ctx I) (inputs : List I) (targets : List ℕ) :
    TestBatchResult :=
  let perts := ctx.perturb inputs
  let advInputs := List.zipWith ctx.add inputs perts
  let logits := advInputs.map ctx.model
  { objectivesEx := ctx.objectives inputs
    lossesEx := List.zipWith ctx.lossEx logits targets
    errorsEx := List.zipWith ctx.errEx logits targets
    confsEx := logits.map ctx.confEx
    successesEx := List.zipWith (fun lg t => successInd t lg) logits targets
    normsEx := ctx.normF perts }

/-- The test loop's batch selection, lines 213-216 and 236 of the source:
iterate over the test set with counter `b` starting at the given value and
stop (`break`) as soon as `b >= maxB`. -/
def testLoopBatches {β : Type} (maxB : ℕ) : List β → ℕ → List β
  | [], _ => []
  | x :: xs, b => if maxB ≤ b then [] else x :: testLoopBatches maxB xs (b + 1)

/-- The test batches actually evaluated: the capped loop started at
`b = 0` with the cap `self.max_batches = 10`. -/
def testProcessed {β : Type} (batches : List β) : List β :=
  testLoopBatches 10 batches 0

/-- Per-batch results of the adversarial test pass: one `testBatch`
evaluation per batch kept by the capped loop. -/
def advTestRows {I : Type} (ctx : Ctx I)
    (batches : List (List I × List ℕ)) : List TestBatchResult :=
  (testProcessed batches).map (fun b => testBatch ctx b.1 b.2)

/-- Writer events of the adversarial part of `test(epoch)`, lines
239-245 of the source: six scalars of accumulator means at
`global_step = epoch + 1`. -/
def advTestEvents {I : Type} (ctx : Ctx I)
    (batches : List (List I × List ℕ)) (epoch : ℕ) : List WriterEvent :=
  [WriterEvent.scalar "test/adversarial_loss"
     (qmean ((advTestRows ctx batches).flatMap TestBatchResult.lossesEx))
     (epoch + 1),
   WriterEvent.scalar "test/adversarial_error"
     (qmean ((advTestRows ctx batches).flatMap TestBatchResult.errorsEx))
     (epoch + 1),
   WriterEvent.scalar "test/adversarial_confidence"
     (qmean ((advTestRows ctx batches).flatMap TestBatchResult.confsEx))
     (epoch + 1),
   WriterEvent.scalar "test/adversarial_success"
     (qmean (((advTestRows ctx batches).flatMap
       TestBatchResult.successesEx).map (fun s => (s : ℚ)))) (epoch + 1),
   WriterEvent.scalar "test/adversarial_norm"
     (qmean ((advTestRows ctx batches).flatMap TestBatchResult.normsEx))
     (epoch + 1),
   WriterEvent.scalar "test/adversarial_objective"
     (qmean ((advTestRows ctx batches).flatMap TestBatchResult.objectivesEx))
     (epoch + 1)]

/-- Writer events of one `test(epoch)` call, lines 194-245: the base
trainer's clean-test pass first (external collaborator), then the
adversarial pass. -/
def testEvents {I : Type} (ctx : Ctx I)
    (batches : List (List I × List ℕ)) (epoch : ℕ) : List WriterEvent :=
  ctx.superTestEvents epoch ++ advTestEvents ctx batches epoch

/-- Writer events of one `step(epoch)` call, lines 255-264: the training
pass, then the test pass. -/
def stepEvents {I : Type} (ctx : Ctx I) (fractionClean : ℚ)
    (trainBatches testBatches : List (List I × List ℕ)) (epoch : ℕ) :
    List WriterEvent :=
  trainEpochEvents ctx fractionClean epoch trainBatches
    ++ testEvents ctx testBatches epoch

/-- The three configuration text entries the constructor writes
(lines 64-66 of the source). -/
def configEvents : List WriterEvent :=
  [WriterEvent.text "config/attack",
   WriterEvent.text "config/objective",
   WriterEvent.text "config/fraction"]

/-- Writer events of a whole run: construction, then `step(0)`,
`step(1)`, ... over the fixed data sources. -/
def runEvents {I : Type} (ctx : Ctx I) (fractionClean : ℚ)
    (trainBatches testBatches : List (List I × List ℕ)) (numEpochs : ℕ) :
    List WriterEvent :=
  configEvents
    ++ (List.range numEpochs).flatMap
        (stepEvents ctx fractionClean trainBatches testBatches)

/-- Configuration the constructor stores (lines 57-62 of the source):
the clean fraction `1 - fraction` and the test-batch cap 10. -/
structure Config where
  fraction : ℚ
  maxBatches : ℕ
deriving DecidableEq

/-- The constructor's contract checks and stored state, lines 43-66 of
the source: assert `fraction > 0`, `fraction <= 1`, that the objective is
an `attacks.objectives.Objective` instance and that the attack exposes a
`norm` attribute (the two capability checks are abstracted as booleans);
on success store `self.fraction = 1 - fraction` and `self.max_batches
= 10`; any failed assert raises, modelled as `none`. -/
def initConfig (fraction : ℚ) (objectiveOk attackNormOk : Bool) : Option Config :=
  if 0 < fraction ∧ fraction ≤ 1 ∧ objectiveOk = true ∧ attackNormOk = true then
    some { fraction := 1 - fraction, maxBatches := 10 }
  else
    none

/-- Every entry of the list is 0 or 1. -/
def binaryList (l : List ℕ) : Prop := ∀ s ∈ l, s = 0 ∨ s = 1

/-- No `add_text` event occurs in the trace. -/
def textFree (l : List WriterEvent) : Prop := ∀ e ∈ l, e.isText = false

/-- The trace is a block of scalar events followed by a block of image
events. -/
def scalarsThenImages (l : List WriterEvent) : Prop :=
  ∃ a b, l = a ++ b ∧ (∀ e ∈ a, e.isScalar = true) ∧ (∀ e ∈ b, e.isImages = true)

/-- Every event in the trace carries the given `global_step`. -/
def eventsAtStep (l : List WriterEvent) (k : ℕ) : Prop :=
  ∀ e ∈ l, e.stepOf = some k

/-- None of the clean-partition scalar keys occurs in the trace. -/
def noCleanTrainScalars (l : List WriterEvent) : Prop :=
  ∀ e ∈ l, e.keyOf ≠ "train/loss" ∧ e.keyOf ≠ "train/error" ∧
    e.keyOf ≠ "train/confidence"

/-- A concrete instantiation of the collaborators used by the witnesses
and counterexamples: one-element inputs, two logits, a zero-perturbation
attack, a loss that is 1 on label 0 and 0 otherwise. -/
def ctxW : Ctx Unit where
  model := fun _ => [(0 : ℚ), 1]
  perturb := fun xs => xs
  objectives := fun xs => xs.map (fun _ => 0)
  normF := fun xs => xs.map (fun _ => 0)
  lossEx := fun _ t => if t = 0 then 1 else 0
  errEx := fun _ _ => 0
  confEx := fun _ => 0
  add := fun a _ => a
  superTestEvents := fun _ => []

lemma ctxW_lengthPreserving : ctxW.lengthPreserving := fun _ => rfl

section Lemmas

variable {I : Type}

lemma splitIndex_le {fc : ℚ} (h1 : fc ≤ 1) (n : ℕ) :
    splitIndex fc n ≤ n := by
  unfold splitIndex
  rw [Int.toNat_le]
  calc ⌊fc * (n : ℚ)⌋ ≤ ⌊((n : ℕ) : ℚ)⌋ :=
        Int.floor_le_floor (mul_le_of_le_one_left (Nat.cast_nonneg n) h1)
    _ = (n : ℤ) := Int.floor_natCast n

lemma splitIndex_lt {fc : ℚ} (h1 : fc < 1) {n : ℕ} (hn : 0 < n) :
    splitIndex fc n < n := by
  unfold splitIndex
  rw [Int.toNat_lt' (Nat.pos_iff_ne_zero.mp hn)]
  rw [Int.floor_lt]
  push_cast
  exact mul_lt_of_lt_one_left (by exact_mod_cast hn) h1

lemma splitIndex_cast {fc : ℚ} (h0 : 0 ≤ fc) (n : ℕ) :
    ((splitIndex fc n : ℕ) : ℤ) = ⌊fc * (n : ℚ)⌋ := by
  unfold splitIndex
  exact Int.toNat_of_nonneg
    (Int.floor_nonneg.mpr (mul_nonneg h0 (Nat.cast_nonneg n)))

lemma splitIndex_zero (n : ℕ) : splitIndex 0 n = 0 := by
  simp [splitIndex]

lemma trainBatch_split (ctx : Ctx I) (fc : ℚ) (ins : List I) (tgs : List ℕ) :
    (trainBatch ctx fc ins tgs).split = splitIndex fc ins.length := rfl

lemma trainBatch_cleanTargets (ctx : Ctx I) (fc : ℚ) (ins : List I) (tgs : List ℕ) :
    (trainBatch ctx fc ins tgs).cleanTargets = tgs.take (splitIndex fc ins.length) :=
  rfl

lemma trainBatch_advTargets (ctx : Ctx I) (fc : ℚ) (ins : List I) (tgs : List ℕ) :
    (trainBatch ctx fc ins tgs).advTargets = tgs.drop (splitIndex fc ins.length) :=
  rfl

lemma trainBatch_advInputs_length (ctx : Ctx I) (fc : ℚ) (ins : List I)
    (tgs : List ℕ) (hp : ctx.lengthPreserving) :
    (trainBatch ctx fc ins tgs).advInputs.length
      = ins.length - splitIndex fc ins.length := by
  show (List.zipWith ctx.add (ins.drop (splitIndex fc ins.length))
      (ctx.perturb (ins.drop (splitIndex fc ins.length)))).length
    = ins.length - splitIndex fc ins.length
  rw [List.length_zipWith, hp, List.length_drop, min_self]

/-- With an empty clean partition the loop recombines nothing: the batch
fed to the model is the adversarial batch itself (lines 110-113), the
cleanness guard at line 125 is false, and the backward loss is the
adversarial loss alone. -/
lemma trainBatch_split_zero (ctx : Ctx I) (fc : ℚ) (ins : List I) (tgs : List ℕ)
    (h : splitIndex fc ins.length = 0) :
    (trainBatch ctx fc ins tgs).combinedInputs
        = (trainBatch ctx fc ins tgs).advInputs ∧
    (trainBatch ctx fc ins tgs).loss = (trainBatch ctx fc ins tgs).advLoss := by
  simp only [trainBatch, h]
  simp

/-- With a non-empty clean partition the loop concatenates the clean and
adversarial sub-batches, the recombined batch has the original size, and
the backward loss is the combination of line 128 with the effective clean
fraction `split / N`. -/
lemma trainBatch_pos_split (ctx : Ctx I) (fc : ℚ) (ins : List I) (tgs : List ℕ)
    (hp : ctx.lengthPreserving) (hs : 0 < splitIndex fc ins.length)
    (hsn : splitIndex fc ins.length ≤ ins.length) :
    (trainBatch ctx fc ins tgs).combinedInputs
      = (trainBatch ctx fc ins tgs).cleanInputs
          ++ (trainBatch ctx fc ins tgs).advInputs ∧
    (trainBatch ctx fc ins tgs).combinedInputs.length = ins.length ∧
    (trainBatch ctx fc ins tgs).loss
      = (1 - ((splitIndex fc ins.length : ℚ) / (ins.length : ℚ)))
            * (trainBatch ctx fc ins tgs).cleanLoss
        + ((splitIndex fc ins.length : ℚ) / (ins.length : ℚ))
            * (trainBatch ctx fc ins tgs).advLoss := by
  have hadv : (List.zipWith ctx.add (ins.drop (splitIndex fc ins.length))
      (ctx.perturb (ins.drop (splitIndex fc ins.length)))).length
      = ins.length - splitIndex fc ins.length := by
    rw [List.length_zipWith, hp, List.length_drop, min_self]
  have hguard : (List.zipWith ctx.add (ins.drop (splitIndex fc ins.length))
      (ctx.perturb (ins.drop (splitIndex fc ins.length)))).length < ins.length := by
    rw [hadv]; omega
  have hclean : (ins.take (splitIndex fc ins.length)).length
      = splitIndex fc ins.length := by
    rw [List.length_take]; omega
  have hcomb : ((ins.take (splitIndex fc ins.length)) ++
      (List.zipWith ctx.add (ins.drop (splitIndex fc ins.length))
        (ctx.perturb (ins.drop (splitIndex fc ins.length))))).length
      = ins.length := by
    rw [List.length_append, hclean, hadv]; omega
  have hguard2 : (List.zipWith ctx.add (ins.drop (splitIndex fc ins.length))
      (ctx.perturb (ins.drop (splitIndex fc ins.length)))).length <
      ((ins.take (splitIndex fc ins.length)) ++
      (List.zipWith ctx.add (ins.drop (splitIndex fc ins.length))
        (ctx.perturb (ins.drop (splitIndex fc ins.length))))).length := by
    rw [hcomb, hadv]; omega
  simp only [trainBatch, if_pos hguard, if_pos hguard2]
  exact ⟨trivial, hcomb, trivial⟩

lemma argmaxAux_map {α β : Type} [LinearOrder α] [LinearOrder β]
    (f : α → β) (hf : StrictMono f) (l : List α) :
    ∀ (best : α) (bi i : ℕ),
      argmaxAux (f best) bi i (l.map f) = argmaxAux best bi i l := by
  induction l with
  | nil => intro best bi i; rfl
  | cons x xs ih =>
      intro best bi i
      simp only [List.map_cons, argmaxAux, hf.lt_iff_lt]
      split
      · exact ih x i (i + 1)
      · exact ih best bi (i + 1)

/-- The first-max index is invariant under any strictly monotone
pointwise transform; in particular under softmax, which is the pointwise
exponential divided by a positive constant. -/
lemma argmaxIdx_map_strictMono {α β : Type} [LinearOrder α] [LinearOrder β]
    (f : α → β) (hf : StrictMono f) (l : List α) :
    argmaxIdx (l.map f) = argmaxIdx l := by
  cases l with
  | nil => rfl
  | cons x xs => exact argmaxAux_map f hf xs x 0 1

lemma successInd_binary (t : ℕ) (lg : List ℚ) :
    successInd t lg = 0 ∨ successInd t lg = 1 := by
  unfold successInd; omega

lemma successInd_eq_one_iff (t : ℕ) (lg : List ℚ) :
    successInd t lg = 1 ↔ argmaxIdx lg ≠ t := by
  unfold successInd; omega

lemma binaryList_zipWith_successInd (A : List (List ℚ)) (B : List ℕ) :
    binaryList (List.zipWith (fun lg t => successInd t lg) A B) := by
  induction A generalizing B with
  | nil => intro s hs; simp at hs
  | cons a as ih =>
      cases B with
      | nil => intro s hs; simp at hs
      | cons b bs =>
          intro s hs
          simp only [List.zipWith_cons_cons, List.mem_cons] at hs
          rcases hs with h | h
          · rw [h]; exact successInd_binary b a
          · exact ih bs s h

lemma testLoopBatches_eq_take {β : Type} (maxB : ℕ) (l : List β) :
    ∀ b, testLoopBatches maxB l b = l.take (maxB - b) := by
  induction l with
  | nil => intro b; simp [testLoopBatches]
  | cons x xs ih =>
      intro b
      unfold testLoopBatches
      split_ifs with h
      · have h0 : maxB - b = 0 := by omega
        simp [h0]
      · have h1 : maxB - b = (maxB - (b + 1)) + 1 := by omega
        rw [h1, List.take_succ_cons, ih (b + 1)]

lemma trainEpochEvents_none (ctx : Ctx I) (fc : ℚ) (epoch : ℕ)
    (batches : List (List I × List ℕ)) (h : batches.getLast? = none) :
    trainEpochEvents ctx fc epoch batches = [] := by
  unfold trainEpochEvents; rw [h]

lemma trainEpochEvents_some (ctx : Ctx I) (fc : ℚ) (epoch : ℕ)
    (batches : List (List I × List ℕ)) (lb : List I × List ℕ)
    (h : batches.getLast? = some lb) :
    trainEpochEvents ctx fc epoch batches =
      (if (trainBatch ctx fc lb.1 lb.2).advInputs.length
          < (trainBatch ctx fc lb.1 lb.2).combinedInputs.length then
        [WriterEvent.scalar "train/loss"
           (qmean (trainAccum ctx fc batches).clLosses) epoch,
         WriterEvent.scalar "train/error"
           (qmean (trainAccum ctx fc batches).clErrors) epoch,
         WriterEvent.scalar "train/confidence"
           (qmean (trainAccum ctx fc batches).clConfs) epoch]
       else [])
      ++ [WriterEvent.scalar "train/adversarial_success"
            (qmean ((trainAccum ctx fc batches).successes.map
              (fun s => (s : ℚ)))) epoch,
          WriterEvent.scalar "train/adversarial_loss"
            (qmean (trainAccum ctx fc batches).losses) epoch,
          WriterEvent.scalar "train/adversarial_error"
            (qmean (trainAccum ctx fc batches).errors) epoch,
          WriterEvent.scalar "train/adversarial_confidence"
            (qmean (trainAccum ctx fc batches).confs) epoch]
      ++ (if (trainBatch ctx fc lb.1 lb.2).advInputs.length
            < (trainBatch ctx fc lb.1 lb.2).combinedInputs.length then
            [WriterEvent.images "train/images" epoch]
          else [])
      ++ [WriterEvent.images "train/adversarial_images" epoch] := by
  unfold trainEpochEvents; rw [h]

lemma WriterEvent.isText_false_of_scalar {e : WriterEvent} (h : e.isScalar = true) :
    e.isText = false := by
  cases e <;> simp_all [WriterEvent.isScalar, WriterEvent.isText]

lemma WriterEvent.isText_false_of_images {e : WriterEvent} (h : e.isImages = true) :
    e.isText = false := by
  cases e <;> simp_all [WriterEvent.isImages, WriterEvent.isText]

lemma trainEpochEvents_struct (ctx : Ctx I) (fc : ℚ) (epoch : ℕ)
    (batches : List (List I × List ℕ)) :
    scalarsThenImages (trainEpochEvents ctx fc epoch batches) ∧
    eventsAtStep (trainEpochEvents ctx fc epoch batches) epoch := by
  rcases hb : batches.getLast? with _ | lb
  · rw [trainEpochEvents_none ctx fc epoch batches hb]
    exact ⟨⟨[], [], rfl, by simp, by simp⟩, by intro e he; simp at he⟩
  · rw [trainEpochEvents_some ctx fc epoch batches lb hb]
    by_cases hg : (trainBatch ctx fc lb.1 lb.2).advInputs.length
        < (trainBatch ctx fc lb.1 lb.2).combinedInputs.length
    · rw [if_pos hg, if_pos hg]
      constructor
      · refine ⟨[WriterEvent.scalar "train/loss"
            (qmean (trainAccum ctx fc batches).clLosses) epoch,
          WriterEvent.scalar "train/error"
            (qmean (trainAccum ctx fc batches).clErrors) epoch,
          WriterEvent.scalar "train/confidence"
            (qmean (trainAccum ctx fc batches).clConfs) epoch,
          WriterEvent.scalar "train/adversarial_success"
            (qmean ((trainAccum ctx fc batches).successes.map
              (fun s => (s : ℚ)))) epoch,
          WriterEvent.scalar "train/adversarial_loss"
            (qmean (trainAccum ctx fc batches).losses) epoch,
          WriterEvent.scalar "train/adversarial_error"
            (qmean (trainAccum ctx fc batches).errors) epoch,
          WriterEvent.scalar "train/adversarial_confidence"
            (qmean (trainAccum ctx fc batches).confs) epoch],
          [WriterEvent.images "train/images" epoch,
           WriterEvent.images "train/adversarial_images" epoch], by simp, ?_, ?_⟩
        · intro e he
          simp only [List.mem_cons, List.not_mem_nil, or_false] at he
          rcases he with rfl | rfl | rfl | rfl | rfl | rfl | rfl <;> rfl
        · intro e he
          simp only [List.mem_cons, List.not_mem_nil, or_false] at he
          rcases he with rfl | rfl <;> rfl
      · intro e he
        simp only [List.mem_append, List.mem_cons, List.not_mem_nil, or_false] at he
        rcases he with (((rfl | rfl | rfl) | rfl | rfl | rfl | rfl) | rfl) | rfl <;> rfl
    · rw [if_neg hg, if_neg hg]
      constructor
      · refine ⟨[WriterEvent.scalar "train/adversarial_success"
            (qmean ((trainAccum ctx fc batches).successes.map
              (fun s => (s : ℚ)))) epoch,
          WriterEvent.scalar "train/adversarial_loss"
            (qmean (trainAccum ctx fc batches).losses) epoch,
          WriterEvent.scalar "train/adversarial_error"
            (qmean (trainAccum ctx fc batches).errors) epoch,
          WriterEvent.scalar "train/adversarial_confidence"
            (qmean (trainAccum ctx fc batches).confs) epoch],
          [WriterEvent.images "train/adversarial_images" epoch], by simp, ?_, ?_⟩
        · intro e he
          simp only [List.mem_cons, List.not_mem_nil, or_false] at he
          rcases he with rfl | rfl | rfl | rfl <;> rfl
        · intro e he
          simp only [List.mem_cons, List.not_mem_nil, or_false] at he
          rcases he with rfl
          rfl
      · intro e he
        simp only [List.nil_append, List.mem_append, List.mem_cons,
          List.not_mem_nil, or_false] at he
        rcases he with (rfl | rfl | rfl | rfl) | rfl <;> rfl

lemma advTestEvents_struct (ctx : Ctx I) (batches : List (List I × List ℕ))
    (epoch : ℕ) :
    (∀ e ∈ advTestEvents ctx batches epoch, e.isScalar = true) ∧
    eventsAtStep (advTestEvents ctx batches epoch) (epoch + 1) := by
  constructor <;>
    · intro e he
      simp only [advTestEvents, List.mem_cons, List.not_mem_nil, or_false] at he
      rcases he with rfl | rfl | rfl | rfl | rfl | rfl <;> rfl

lemma noClean_trainEpochEvents_zero (ctx : Ctx I) (epoch : ℕ)
    (batches : List (List I × List ℕ)) :
    noCleanTrainScalars (trainEpochEvents ctx 0 epoch batches) := by
  intro e he
  rcases hb : batches.getLast? with _ | lb
  · rw [trainEpochEvents_none ctx 0 epoch batches hb] at he; simp at he
  · rw [trainEpochEvents_some ctx 0 epoch batches lb hb] at he
    have hcomb := (trainBatch_split_zero ctx 0 lb.1 lb.2 (splitIndex_zero _)).1
    have hg : ¬ ((trainBatch ctx 0 lb.1 lb.2).advInputs.length
        < (trainBatch ctx 0 lb.1 lb.2).combinedInputs.length) := by
      rw [hcomb]; exact lt_irrefl _
    rw [if_neg hg, if_neg hg] at he
    simp only [List.nil_append, List.mem_append, List.mem_cons,
      List.not_mem_nil, or_false] at he
    rcases he with (rfl | rfl | rfl | rfl) | rfl <;>
      simp [WriterEvent.keyOf]

end Lemmas

section Claims

variable {I : Type}

/-- C2: for every training batch of size `N` and every constructor
fraction `f` in `(0, 1]`, the split index computed by the training step
equals `⌊(1 - f) * N⌋`, the clean partition being the prefix
`[0, split)` and the adversarial partition the suffix `[split, N)`. -/
theorem C2_split_floor_partition (ctx : Ctx I) (f : ℚ) (inputs : List I)
    (targets : List ℕ) (_hf0 : 0 < f) (hf1 : f ≤ 1) :
    (((trainBatch ctx (1 - f) inputs targets).split : ℕ) : ℤ)
        = ⌊(1 - f) * (inputs.length : ℚ)⌋ ∧
    (trainBatch ctx (1 - f) inputs targets).cleanInputs
        = inputs.take (trainBatch ctx (1 - f) inputs targets).split ∧
    (trainBatch ctx (1 - f) inputs targets).advRaw
        = inputs.drop (trainBatch ctx (1 - f) inputs targets).split ∧
    (trainBatch ctx (1 - f) inputs targets).cleanTargets
        = targets.take (trainBatch ctx (1 - f) inputs targets).split ∧
    (trainBatch ctx (1 - f) inputs targets).advTargets
        = targets.drop (trainBatch ctx (1 - f) inputs targets).split := by
  refine ⟨?_, rfl, rfl, rfl, rfl⟩
  rw [trainBatch_split]
  exact splitIndex_cast (by linarith) inputs.length

/-- Witness for C2 at `f = 1/2` on a batch of two examples. -/
theorem C2_split_floor_partition_witness :
    (((trainBatch ctxW (1 - 1/2) [(), ()] [0, 1]).split : ℕ) : ℤ)
        = ⌊(1 - 1/2 : ℚ) * (([(), ()] : List Unit).length : ℚ)⌋ ∧
    (trainBatch ctxW (1 - 1/2) [(), ()] [0, 1]).cleanInputs
        = [(), ()].take (trainBatch ctxW (1 - 1/2) [(), ()] [0, 1]).split ∧
    (trainBatch ctxW (1 - 1/2) [(), ()] [0, 1]).advRaw
        = [(), ()].drop (trainBatch ctxW (1 - 1/2) [(), ()] [0, 1]).split ∧
    (trainBatch ctxW (1 - 1/2) [(), ()] [0, 1]).cleanTargets
        = [0, 1].take (trainBatch ctxW (1 - 1/2) [(), ()] [0, 1]).split ∧
    (trainBatch ctxW (1 - 1/2) [(), ()] [0, 1]).advTargets
        = [0, 1].drop (trainBatch ctxW (1 - 1/2) [(), ()] [0, 1]).split :=
  C2_split_floor_partition ctxW (1/2) [(), ()] [0, 1]
    (by norm_num) (by norm_num)

/-- C9: for every non-empty batch and every constructor fraction in
`(0, 1]` the adversarial suffix is never empty (`split < N`), and when
the clean prefix is empty the step takes the whole-batch branch and uses
the adversarial loss alone for the backward pass. -/
theorem C9_adversarial_suffix_nonempty (ctx : Ctx I) (f : ℚ) (inputs : List I)
    (targets : List ℕ) (hf0 : 0 < f) (_hf1 : f ≤ 1) (hn : inputs ≠ []) :
    (trainBatch ctx (1 - f) inputs targets).split < inputs.length ∧
    ((trainBatch ctx (1 - f) inputs targets).split = 0 →
      (trainBatch ctx (1 - f) inputs targets).combinedInputs
          = (trainBatch ctx (1 - f) inputs targets).advInputs ∧
      (trainBatch ctx (1 - f) inputs targets).loss
          = (trainBatch ctx (1 - f) inputs targets).advLoss) := by
  constructor
  · rw [trainBatch_split]
    exact splitIndex_lt (by linarith) (List.length_pos.mpr hn)
  · intro h0
    exact trainBatch_split_zero ctx (1 - f) inputs targets h0

/-- Witness for C9 at `f = 9/10` on a batch of one example, where the
clean prefix is indeed empty. -/
theorem C9_adversarial_suffix_nonempty_witness :
    (trainBatch ctxW (1 - 9/10) [()] [0]).split < ([()] : List Unit).length ∧
    ((trainBatch ctxW (1 - 9/10) [()] [0]).split = 0 →
      (trainBatch ctxW (1 - 9/10) [()] [0]).combinedInputs
          = (trainBatch ctxW (1 - 9/10) [()] [0]).advInputs ∧
      (trainBatch ctxW (1 - 9/10) [()] [0]).loss
          = (trainBatch ctxW (1 - 9/10) [()] [0]).advLoss) :=
  C9_adversarial_suffix_nonempty ctxW (9/10) [()] [0]
    (by norm_num) (by norm_num) (by simp)

/-- C5: a partitioned batch recombines to the original size `N`, and the
target ordering is preserved: the clean targets followed by the
adversarial targets are the original target sequence (the attack's
perturbation list having the same leading dimension as the adversarial
sub-batch). -/
theorem C5_recombination_preserves_batch (ctx : Ctx I) (f : ℚ)
    (inputs : List I) (targets : List ℕ) (hf0 : 0 < f) (_hf1 : f ≤ 1)
    (hp : ctx.lengthPreserving) :
    (trainBatch ctx (1 - f) inputs targets).combinedInputs.length
        = inputs.length ∧
    (trainBatch ctx (1 - f) inputs targets).cleanTargets
        ++ (trainBatch ctx (1 - f) inputs targets).advTargets = targets := by
  constructor
  · rcases Nat.eq_zero_or_pos (splitIndex (1 - f) inputs.length) with h0 | hs
    · rw [(trainBatch_split_zero ctx (1 - f) inputs targets h0).1,
        trainBatch_advInputs_length ctx (1 - f) inputs targets hp, h0]
      omega
    · exact (trainBatch_pos_split ctx (1 - f) inputs targets hp hs
        (splitIndex_le (by linarith) inputs.length)).2.1
  · rw [trainBatch_cleanTargets, trainBatch_advTargets]
    exact List.take_append_drop _ targets

/-- Witness for C5 at `f = 1/2` on a batch of two examples. -/
theorem C5_recombination_preserves_batch_witness :
    (trainBatch ctxW (1 - 1/2) [(), ()] [0, 1]).combinedInputs.length
        = ([(), ()] : List Unit).length ∧
    (trainBatch ctxW (1 - 1/2) [(), ()] [0, 1]).cleanTargets
        ++ (trainBatch ctxW (1 - 1/2) [(), ()] [0, 1]).advTargets = [0, 1] :=
  C5_recombination_preserves_batch ctxW (1/2) [(), ()] [0, 1]
    (by norm_num) (by norm_num) ctxW_lengthPreserving

/-- C1 counterexample: at constructor fraction `f = 4/5` on a batch of
size `N = 5` the realized split is 1, so the effective adversarial
fraction of the claim is `(N - split)/N = 4/5`; with clean loss 1 and
adversarial loss 0 the claimed convex combination is `1/5`, but the code
computes `4/5`: line 128 weights the clean loss by the adversarial
fraction and the adversarial loss by the clean fraction. -/
theorem C1_counterexample :
    (0 : ℚ) < 4/5 ∧ (4/5 : ℚ) ≤ 1 ∧
    (trainBatch ctxW (1 - 4/5) (List.replicate 5 ()) [0, 1, 1, 1, 1]).split = 1 ∧
    (trainBatch ctxW (1 - 4/5) (List.replicate 5 ()) [0, 1, 1, 1, 1]).cleanLoss
        = 1 ∧
    (trainBatch ctxW (1 - 4/5) (List.replicate 5 ()) [0, 1, 1, 1, 1]).advLoss
        = 0 ∧
    (trainBatch ctxW (1 - 4/5) (List.replicate 5 ()) [0, 1, 1, 1, 1]).loss
      ≠ (1 - ((5 - 1 : ℕ) : ℚ) / 5)
          * (trainBatch ctxW (1 - 4/5) (List.replicate 5 ()) [0, 1, 1, 1, 1]).cleanLoss
        + (((5 - 1 : ℕ) : ℚ) / 5)
          * (trainBatch ctxW (1 - 4/5) (List.replicate 5 ()) [0, 1, 1, 1, 1]).advLoss := by
  norm_num [trainBatch, splitIndex, qmean, ctxW, List.replicate_succ]

/-- C1 amended: in every batch in which both partitions exist, the
backward loss is the convex combination with the weights swapped
relative to the claim: the clean loss is weighted by the effective
adversarial fraction `f_adv = (N - split)/N` and the adversarial loss by
`1 - f_adv`. -/
theorem C1_amended_backward_loss (ctx : Ctx I) (f : ℚ) (inputs : List I)
    (targets : List ℕ) (hf0 : 0 < f) (_hf1 : f ≤ 1) (hp : ctx.lengthPreserving)
    (hs : 0 < (trainBatch ctx (1 - f) inputs targets).split) :
    (trainBatch ctx (1 - f) inputs targets).loss
      = (((inputs.length - (trainBatch ctx (1 - f) inputs targets).split : ℕ) : ℚ)
            / (inputs.length : ℚ))
          * (trainBatch ctx (1 - f) inputs targets).cleanLoss
        + (1 - ((inputs.length
                - (trainBatch ctx (1 - f) inputs targets).split : ℕ) : ℚ)
            / (inputs.length : ℚ))
          * (trainBatch ctx (1 - f) inputs targets).advLoss := by
  rw [trainBatch_split] at hs ⊢
  have hsn : splitIndex (1 - f) inputs.length ≤ inputs.length :=
    splitIndex_le (by linarith) inputs.length
  have hn : 0 < inputs.length := lt_of_lt_of_le hs hsn
  rw [(trainBatch_pos_split ctx (1 - f) inputs targets hp hs hsn).2.2]
  have hcast : ((inputs.length - splitIndex (1 - f) inputs.length : ℕ) : ℚ)
      = (inputs.length : ℚ) - (splitIndex (1 - f) inputs.length : ℚ) := by
    exact_mod_cast Nat.cast_sub hsn
  have hne : ((inputs.length : ℚ)) ≠ 0 := by
    exact_mod_cast Nat.pos_iff_ne_zero.mp hn
  rw [hcast]
  field_simp

/-- Witness for the amended C1 at `f = 4/5`, `N = 5`, `split = 1`. -/
theorem C1_amended_backward_loss_witness :
    (trainBatch ctxW (1 - 4/5) (List.replicate 5 ()) [0, 1, 1, 1, 1]).loss
      = (((List.replicate 5 ()).length
            - (trainBatch ctxW (1 - 4/5) (List.replicate 5 ()) [0, 1, 1, 1, 1]).split
              : ℕ) : ℚ) / ((List.replicate 5 ()).length : ℚ)
          * (trainBatch ctxW (1 - 4/5)
              (List.replicate 5 ()) [0, 1, 1, 1, 1]).cleanLoss
        + (1 - (((List.replicate 5 ()).length
            - (trainBatch ctxW (1 - 4/5) (List.replicate 5 ()) [0, 1, 1, 1, 1]).split
              : ℕ) : ℚ) / ((List.replicate 5 ()).length : ℚ))
          * (trainBatch ctxW (1 - 4/5)
              (List.replicate 5 ()) [0, 1, 1, 1, 1]).advLoss :=
  C1_amended_backward_loss ctxW (4/5) (List.replicate 5 ()) [0, 1, 1, 1, 1]
    (by norm_num) (by norm_num) ctxW_lengthPreserving
    (by norm_num [trainBatch, splitIndex])

/-- C6: the accumulated attack-success indicator of both the training
and the test pass is in `{0, 1}` whatever the number of classes, and it
equals 1 exactly when the predicted class, the argmax of the softmax of
the logits (represented by an arbitrary strictly monotone pointwise
transform `σ` of the logits), differs from the target label. -/
theorem C6_success_indicator (σ : ℚ → ℚ) (hσ : StrictMono σ) (ctx : Ctx I)
    (fc : ℚ) (inputs : List I) (targets : List ℕ) (t : ℕ) (logits : List ℚ) :
    binaryList (trainBatch ctx fc inputs targets).successesEx ∧
    binaryList (testBatch ctx inputs targets).successesEx ∧
    (successInd t logits = 1 ↔ argmaxIdx (logits.map σ) ≠ t) := by
  refine ⟨binaryList_zipWith_successInd _ _, binaryList_zipWith_successInd _ _, ?_⟩
  rw [argmaxIdx_map_strictMono σ hσ]
  exact successInd_eq_one_iff t logits

/-- Witness for C6 with the identity transform on a two-class example. -/
theorem C6_success_indicator_witness :
    binaryList (trainBatch ctxW (1 - 1/2) [(), ()] [0, 1]).successesEx ∧
    binaryList (testBatch ctxW [(), ()] [0, 1]).successesEx ∧
    (successInd 0 [(0 : ℚ), 1] = 1 ↔ argmaxIdx ([(0 : ℚ), 1].map id) ≠ 0) :=
  C6_success_indicator id strictMono_id ctxW (1 - 1/2) [(), ()] [0, 1] 0
    [(0 : ℚ), 1]

/-- C7: the constructor succeeds exactly when the fraction is in
`(0, 1]`, the objective is an instance of the expected `Objective`
capability, and the attack exposes a `norm` function; on success it
stores the clean fraction `1 - fraction` and the test cap 10. -/
theorem C7_constructor_contract (f : ℚ) (objectiveOk attackNormOk : Bool) :
    ((initConfig f objectiveOk attackNormOk).isSome
        ↔ (0 < f ∧ f ≤ 1 ∧ objectiveOk = true ∧ attackNormOk = true)) ∧
    (initConfig f objectiveOk attackNormOk).elim True
      (fun c => c.fraction = 1 - f ∧ c.maxBatches = 10) := by
  unfold initConfig
  split_ifs with h
  · simpa using h
  · simpa using h

/-- C4: the adversarial test pass evaluates exactly the first
`min(number_of_test_batches, 10)` batches of the test source: the capped
loop keeps exactly the length-10 prefix, and the per-batch evaluations
are those of that prefix only. -/
theorem C4_test_batch_cap (ctx : Ctx I) (batches : List (List I × List ℕ)) :
    testProcessed batches = batches.take 10 ∧
    (testProcessed batches).length = min batches.length 10 ∧
    (testProcessed batches).map (fun b => testBatch ctx b.1 b.2)
      = (batches.take 10).map (fun b => testBatch ctx b.1 b.2) := by
  have h : testProcessed batches = batches.take 10 := by
    have := testLoopBatches_eq_take 10 batches 0
    simpa [testProcessed] using this
  refine ⟨h, ?_, by rw [h]⟩
  rw [h, List.length_take, Nat.min_comm]

/-- C3: when the constructor fraction is 1 (no clean examples), every
training batch's backward loss is exactly the adversarial loss, and no
clean-partition scalar (`train/loss`, `train/error`, `train/confidence`)
is emitted at epoch end. -/
theorem C3_fraction_one_adv_only (ctx : Ctx I) (f : ℚ) (hf : f = 1)
    (inputs : List I) (targets : List ℕ) (epoch : ℕ)
    (batches : List (List I × List ℕ)) :
    (trainBatch ctx (1 - f) inputs targets).loss
        = (trainBatch ctx (1 - f) inputs targets).advLoss ∧
    noCleanTrainScalars (trainEpochEvents ctx (1 - f) epoch batches) := by
  subst hf
  have h10 : (1 - 1 : ℚ) = 0 := by norm_num
  rw [h10]
  exact ⟨(trainBatch_split_zero ctx 0 inputs targets (splitIndex_zero _)).2,
    noClean_trainEpochEvents_zero ctx epoch batches⟩

/-- Witness for C3 on a one-element batch and a one-batch epoch. -/
theorem C3_fraction_one_adv_only_witness :
    (trainBatch ctxW (1 - 1) [()] [0]).loss
        = (trainBatch ctxW (1 - 1) [()] [0]).advLoss ∧
    noCleanTrainScalars (trainEpochEvents ctxW (1 - 1) 0 [([()], [0])]) :=
  C3_fraction_one_adv_only ctxW 1 rfl [()] [0] 0 [([()], [0])]

/-- C8: the run trace opens with the three configuration text entries
written once at construction; no further text entry is written by any
epoch; and within every epoch's training pass all per-epoch metric
scalars are written before the image-grid samples, so an image grid is
never written before a scalar of the same training pass. -/
theorem C8_writer_ordering (ctx : Ctx I) (fc : ℚ)
    (trainBs testBs : List (List I × List ℕ)) (numEpochs epoch : ℕ)
    (hSuper : ∀ k, textFree (ctx.superTestEvents k)) :
    runEvents ctx fc trainBs testBs numEpochs
        = configEvents ++ (List.range numEpochs).flatMap
            (stepEvents ctx fc trainBs testBs) ∧
    configEvents = [WriterEvent.text "config/attack",
        WriterEvent.text "config/objective",
        WriterEvent.text "config/fraction"] ∧
    textFree ((List.range numEpochs).flatMap
        (stepEvents ctx fc trainBs testBs)) ∧
    scalarsThenImages (trainEpochEvents ctx fc epoch trainBs) := by
  refine ⟨rfl, rfl, ?_, (trainEpochEvents_struct ctx fc epoch trainBs).1⟩
  intro e he
  rw [List.mem_flatMap] at he
  obtain ⟨k, _, hek⟩ := he
  rcases List.mem_append.mp hek with h | h
  · obtain ⟨a, b, heq, ha, hb⟩ := (trainEpochEvents_struct ctx fc k trainBs).1
    rw [heq] at h
    rcases List.mem_append.mp h with h2 | h2
    · exact WriterEvent.isText_false_of_scalar (ha e h2)
    · exact WriterEvent.isText_false_of_images (hb e h2)
  · rcases List.mem_append.mp h with h1 | h1
    · exact hSuper k e h1
    · exact WriterEvent.isText_false_of_scalar
        ((advTestEvents_struct ctx testBs k).1 e h1)

/-- Witness for C8 on a one-epoch run over singleton data sources. -/
theorem C8_writer_ordering_witness :
    runEvents ctxW (1 - 1/2) [([(), ()], [0, 1])] [([(), ()], [0, 1])] 1
        = configEvents ++ (List.range 1).flatMap
            (stepEvents ctxW (1 - 1/2) [([(), ()], [0, 1])] [([(), ()], [0, 1])]) ∧
    configEvents = [WriterEvent.text "config/attack",
        WriterEvent.text "config/objective",
        WriterEvent.text "config/fraction"] ∧
    textFree ((List.range 1).flatMap
        (stepEvents ctxW (1 - 1/2) [([(), ()], [0, 1])] [([(), ()], [0, 1])])) ∧
    scalarsThenImages
        (trainEpochEvents ctxW (1 - 1/2) 0 [([(), ()], [0, 1])]) :=
  C8_writer_ordering ctxW (1 - 1/2) [([(), ()], [0, 1])] [([(), ()], [0, 1])]
    1 0 (by intro k; simp [ctxW, textFree])

/-- C10: within one `step(epoch)` call the training pass comes first and
all its events carry `global_step = epoch`, while the adversarial
test-phase scalars of the same call carry `global_step = epoch + 1`, so
the two phases of the same epoch are keyed to different steps. -/
theorem C10_phase_steps (ctx : Ctx I) (fc : ℚ)
    (trainBs testBs : List (List I × List ℕ)) (epoch : ℕ) :
    stepEvents ctx fc trainBs testBs epoch
        = trainEpochEvents ctx fc epoch trainBs
          ++ (ctx.superTestEvents epoch ++ advTestEvents ctx testBs epoch) ∧
    eventsAtStep (trainEpochEvents ctx fc epoch trainBs) epoch ∧
    eventsAtStep (advTestEvents ctx testBs epoch) (epoch + 1) :=
  ⟨rfl, (trainEpochEvents_struct ctx fc epoch trainBs).2,
    (advTestEvents_struct ctx testBs epoch).2⟩

end Claims

end AdvTraining
